import Mathlib

/-!
Verification of the QuoteManager integration script (src/app.py).

The development shallowly embeds the functions of `app.py` that the
specification talks about:

* `retry_with_backoff` (app.py lines 295-316): the exponential-backoff
  retry executor.  The wrapped operation is modelled as a function from
  the attempt index to an `Outcome`; `time.sleep` calls are recorded in
  a `waits` list and the two `logging.error`/success exits are recorded
  in the returned `RetryResult`.
* `get_all_quotes` (lines 146-196): the paginated quote listing.  The
  remote endpoint is modelled as a function from the requested page
  number to a `Response` (status code plus JSON body); the unbounded
  `while True` loop is run on explicit fuel, which strictly exceeds the
  number of requests every theorem talks about.  Python's `len(data)`
  on an arbitrary JSON value is modelled by `pyLen` (`none` encodes a
  `TypeError`).  The `quote_summary` list built inside the loop is dead
  code (only a commented-out print uses it) and is not modelled.
* `calc_total` (lines 131-140): numbers are modelled as rationals;
  Python dict access `item[k]` on a possibly missing key is modelled by
  `dictGet` returning `Except` (a `KeyError`), `item.get(k, d)` by
  `Option.getD`.
* the body of `monitor_inbox` (lines 206-292): the per-message block
  (lines 255-285) and the outer per-cycle structure.  Remote
  collaborators (`get_all_quotes`, `get_quote_details`,
  `get_sales_order_lines`, token refresh, folder access) are modelled
  as inputs; the observable actions (log lines, the
  `retry_with_backoff` move invocation, returning from the function)
  are recorded as events.  Python's `"x" in s` and `s.split(sep)` on
  strings are modelled by `pyContains` and `pySplit` over the character
  lists of the strings.
-/

namespace QuoteManager

/-! ### Retry executor (app.py lines 295-316) -/

/-- Error kinds raised by the mailbox collaborator.  The six named
constructors are the exception classes listed in the `except (...)`
clause at line 309; `other` stands for any other `Exception` (caught by
the bare `except Exception` clause at line 313). -/
inductive ErrKind where
  | rateLimitError
  | errorItemNotFound
  | errorServerBusy
  | errorTimeoutExpired
  | errorMailboxMoveInProgress
  | errorTooManyObjectsOpened
  | other (msg : String)
deriving DecidableEq

/-- Classification implicit in the two `except` clauses of
`retry_with_backoff`: the six named kinds are retryable, anything else
is not. -/
def retryable : ErrKind → Bool
  | .other _ => false
  | _ => true

/-- Result of one invocation of the wrapped operation. -/
inductive Outcome where
  | success
  | failure (e : ErrKind)
deriving DecidableEq

/-- The invocation failed with a retryable error kind. -/
def isRetryableFailure : Outcome → Bool
  | .failure e => retryable e
  | .success => false

/-- The invocation failed with a non-retryable error kind. -/
def isFatalFailure : Outcome → Bool
  | .failure e => !retryable e
  | .success => false

/-- Observable behaviour of one `retry_with_backoff` run: how many
times `func()` was invoked, the recorded `time.sleep` durations in
order, whether `func()` ever returned successfully, and whether the
final `logging.error("Failed ...")` at line 316 executed (it is skipped
only by the `return` on success at line 308). -/
structure RetryResult where
  calls : Nat
  waits : List Nat
  succeeded : Bool
  finalFailureLogged : Bool
deriving DecidableEq

/-- The `for attempt in range(max_retries)` loop of
`retry_with_backoff`, with `remaining` attempts left, the current
attempt index, the current `delay`, and the sleeps recorded so far.
When the range is exhausted, execution falls through to line 316. -/
def retryGo (func : Nat → Outcome) : Nat → Nat → Nat → List Nat → RetryResult
  | 0, attempt, _delay, waits => ⟨attempt, waits, false, true⟩
  | remaining + 1, attempt, delay, waits =>
    match func attempt with
    | .success => ⟨attempt + 1, waits, true, false⟩
    | .failure e =>
      if retryable e then
        retryGo func remaining (attempt + 1) (delay * 2) (waits ++ [delay])
      else
        ⟨attempt + 1, waits, false, true⟩

/-- `retry_with_backoff(func, description, max_retries, base_delay)`
(app.py lines 295-316).  The source defaults are `max_retries=5`,
`base_delay=5`; the `operation_description` only feeds log text and is
not modelled. -/
def retry_with_backoff (func : Nat → Outcome) (max_retries : Nat) (base_delay : Nat) :
    RetryResult :=
  retryGo func max_retries 0 base_delay []

/-- The sleep schedule produced by `k` successive retryable failures
starting from delay `d`: `d` is slept, then the delay doubles. -/
def backoffWaits (d : Nat) : Nat → List Nat
  | 0 => []
  | k + 1 => d :: backoffWaits (d * 2) k

/-! ### Quote listing with pagination (app.py lines 146-196) -/

/-- JSON values, the possible shapes of `response.json()`. -/
inductive Json where
  | arr (items : List Json)
  | obj (fields : List (String × Json))
  | str (s : String)
  | num (value : Rat)
  | bool (b : Bool)
  | null

/-- Python `len(data)` on a JSON value: defined for lists, dicts and
strings, a `TypeError` (encoded `none`) otherwise. -/
def pyLen : Json → Option Nat
  | .arr items => some items.length
  | .obj fields => some fields.length
  | .str s => some s.length
  | _ => none

/-- Whether the JSON value is a list, the `isinstance(data, list)`
check at line 175. -/
def Json.isArr : Json → Bool
  | .arr _ => true
  | _ => false

/-- An HTTP response: status code and (for status 200) JSON body. -/
structure Response where
  status : Nat
  body : Json

/-- Result of a `get_all_quotes` run: the returned `all_quotes` list
and the number of GET requests issued, or a raised `TypeError` (from
`len(data)` on a length-less value), or exhausted fuel (never reached
in any theorem below). -/
inductive GAQResult where
  | ok (all_quotes : List Json) (requests : Nat)
  | typeError (requests : Nat)
  | fuelOut (requests : Nat)

/-- Number of GET requests issued before the run ended. -/
def requestsOf : GAQResult → Nat
  | .ok _ requests => requests
  | .typeError requests => requests
  | .fuelOut requests => requests

/-- The `while True` loop of `get_all_quotes` (lines 150-192): request
the current page, on a 200 response extend `all_quotes` when the body
is a list (line 177) and otherwise print a diagnostic, then break when
`len(data) < page_size` (line 187) and continue with `page + 1`
otherwise; on a non-200 response print the error and break (line 192). -/
def gaqGo (respond : Nat → Response) (page_size : Nat) :
    Nat → Nat → List Json → Nat → GAQResult
  | 0, _page, _all_quotes, requests => .fuelOut requests
  | fuel + 1, page, all_quotes, requests =>
    let response := respond page
    if response.status = 200 then
      let data := response.body
      let acc := match data with
        | .arr items => all_quotes ++ items
        | _ => all_quotes
      match pyLen data with
      | none => .typeError (requests + 1)
      | some n =>
        if n < page_size then .ok acc (requests + 1)
        else gaqGo respond page_size fuel (page + 1) acc (requests + 1)
    else
      .ok all_quotes (requests + 1)

/-- `get_all_quotes(api_key, quote_number, modified_after, page,
page_size)` (lines 146-196).  The remote endpoint is `respond`; the
source defaults are `page=1`, `page_size=100`. -/
def get_all_quotes (respond : Nat → Response) (page : Nat) (page_size : Nat)
    (fuel : Nat) : GAQResult :=
  gaqGo respond page_size fuel page [] 0

/-- Concatenation of the pages `page, page + 1, ..., page + k - 1`, in
order. -/
def pageConcat (pages : Nat → List Json) : Nat → Nat → List Json
  | _page, 0 => []
  | page, k + 1 => pages page ++ pageConcat pages (page + 1) k

/-! ### Total calculator (app.py lines 131-140) -/

/-- A sales-order line as used by `calc_total`: the three keys it
reads, each possibly absent from the underlying dict.  Numeric values
are modelled as rationals. -/
structure SalesOrderLine where
  price : Option Rat
  tax : Option Rat
  quantity : Option Rat
deriving DecidableEq

/-- The quote-details fields read by `calc_total` (lines 136-137) and
by `monitor_inbox` (line 270), each read with `.get` and possibly
absent. -/
structure QuoteDetails where
  deliveryAmount : Option Rat
  deliveryTax : Option Rat
  salesOrderId : Option Nat
deriving DecidableEq

/-- Python `item[key]`: the value when present, a raised `KeyError`
when absent. -/
def dictGet {α : Type} (v : Option α) (key : String) : Except String α :=
  match v with
  | some x => Except.ok x
  | none => Except.error ("KeyError: " ++ key)

/-- `sum(item['price'] * item.get('quantity', 1) for item in
sales_order_lines)` (lines 132-133); a missing `price` key raises. -/
def sum_prices : List SalesOrderLine → Except String Rat
  | [] => .ok 0
  | item :: rest =>
    match dictGet item.price "price" with
    | .error e => .error e
    | .ok p =>
      match sum_prices rest with
      | .error e => .error e
      | .ok s => .ok (p * item.quantity.getD 1 + s)

/-- `sum(item['tax'] * item.get('quantity', 1) for item in
sales_order_lines)` (lines 134-135); a missing `tax` key raises. -/
def sum_taxes : List SalesOrderLine → Except String Rat
  | [] => .ok 0
  | item :: rest =>
    match dictGet item.tax "tax" with
    | .error e => .error e
    | .ok t =>
      match sum_taxes rest with
      | .error e => .error e
      | .ok s => .ok (t * item.quantity.getD 1 + s)

/-- `calc_total(quote_details, sales_order_lines)` (lines 131-140):
total price plus total tax plus `deliveryAmount` (default 0) plus
`deliveryTax` (default 0); a `KeyError` from either sum propagates. -/
def calc_total (quote_details : QuoteDetails)
    (sales_order_lines : List SalesOrderLine) : Except String Rat :=
  match sum_prices sales_order_lines with
  | .error e => .error e
  | .ok total_price =>
    match sum_taxes sales_order_lines with
    | .error e => .error e
    | .ok total_tax =>
      .ok (total_price + total_tax +
        quote_details.deliveryAmount.getD 0 + quote_details.deliveryTax.getD 0)

/-! ### Python string operations used by `monitor_inbox`

`"has been signed by " in item.subject` (line 256) and
`item.subject.split(" has been signed by ")[0]` (line 257) are modelled
over the character lists of the strings. -/

/-- One scan step of Python `str.split(sep)`: emit the chunk
accumulated so far whenever `sep` is a prefix of the rest, otherwise
move one character.  The fuel strictly exceeds the length of the
remaining input at every call, so the fuel-exhausted branch is never
taken. -/
def goSplit (sep : List Char) : Nat → List Char → List Char → List (List Char)
  | 0, acc, rest => [acc ++ rest]
  | fuel + 1, acc, rest =>
    if !sep.isEmpty && sep.isPrefixOf rest then
      acc :: goSplit sep fuel [] (rest.drop sep.length)
    else
      match rest with
      | [] => [acc]
      | c :: cs => goSplit sep fuel (acc ++ [c]) cs

/-- Python `s.split(sep)` for a non-empty separator, over character
lists. -/
def pySplit (sep s : List Char) : List (List Char) :=
  goSplit sep (s.length + 1) [] s

/-- Python `sub in s`: `sub` occurs contiguously in `s`. -/
def containsSub (sub : List Char) : List Char → Bool
  | [] => sub.isEmpty
  | c :: cs => sub.isPrefixOf (c :: cs) || containsSub sub cs

/-- Python `sub in s` on strings. -/
def pyContains (s sub : String) : Bool :=
  containsSub sub.data s.data

/-- The phrase tested for containment at line 256 (no leading space). -/
def marker : String := "has been signed by "

/-- The separator used by the `split` at line 257 (leading space). -/
def split_marker : String := " has been signed by "

/-- `item.subject.split(" has been signed by ")[0]` (line 257): the
extracted candidate quote title. -/
def extract_title (subject : String) : String :=
  String.mk ((pySplit split_marker.data subject.data).headD [])

/-- Modelled from the claim wording of C6, not from the source: "the
prefix of the subject before that marker", the marker being
`"has been signed by "` — the segment of the subject strictly before
the first occurrence of the (unspaced) marker. -/
def spec_prefix_before_marker (subject : String) : String :=
  String.mk ((pySplit marker.data subject.data).headD [])

/-! ### Inbox monitor (app.py lines 206-292) -/

/-- A quote record from the listing as read by the matching loop at
lines 263-266: `quote['title']` and `quote['id']` (both keys assumed
present in listing entries, as the source does). -/
structure QuoteRec where
  id : Nat
  title : String
deriving DecidableEq

/-- Observable per-message events of the block at lines 255-285:
log lines, the `get_quote_details` call, the computed total, the
`retry_with_backoff` move invocation, and the per-message `except`
handler at line 284 firing. -/
inductive PEvent where
  | emailFound (title : String)
  | titleFound
  | detailsFetched (quoteId : Nat)
  | totalLogged (quoteId : Nat) (total : Rat)
  | moveInvoked (quoteId : Nat)
  | errorProcessing (e : String)
deriving DecidableEq

/-- The environment one message is processed against: its subject, the
fresh quote listing fetched at line 261, and the two quote-API lookups
(`get_quote_details` by quote id, `get_sales_order_lines` by sales
order id; `none` models their non-200 `return None`). -/
structure MsgEnv where
  subject : String
  listing : List QuoteRec
  details : Nat → Option QuoteDetails
  lines : Nat → Option (List SalesOrderLine)

/-- The body of `if quote['title'] == title:` (lines 264-283) for one
matching quote: fetch details, and when details, a truthy sales-order
id and non-empty lines are all present, compute the total and invoke
the retry executor to move the message.  The guard
`if sales_order_id:` at line 272 is Python truthiness: both a missing
key (`None`) and the integer 0 are falsy and skip the rest of the
block, so a `some 0` id is skipped like an absent one.  Likewise
`if sales_order_lines:` at line 275 treats both `None` and the empty
list as falsy.  Returns the events plus a raised exception (a
`KeyError` escaping `calc_total`), which propagates to the per-message
handler. -/
def process_quote (env : MsgEnv) (quote : QuoteRec) : List PEvent × Option String :=
  let found := [PEvent.titleFound, PEvent.detailsFetched quote.id]
  match env.details quote.id with
  | none => (found, none)
  | some quote_details =>
    match quote_details.salesOrderId with
    | none => (found, none)
    | some sales_order_id =>
      if sales_order_id = 0 then (found, none)
      else
        match env.lines sales_order_id with
        | none => (found, none)
        | some sales_order_lines =>
          if sales_order_lines.isEmpty then (found, none)
          else
            match calc_total quote_details sales_order_lines with
            | .error e => (found, some e)
            | .ok total =>
              (found ++ [PEvent.totalLogged quote.id total, PEvent.moveInvoked quote.id],
               none)

/-- The `for quote in all_quotes:` loop (line 263).  There is no
`break` in the source: after a matching quote is processed the scan
continues with the remaining quotes.  A raised exception aborts the
loop and propagates. -/
def process_quotes (env : MsgEnv) (title : String) :
    List QuoteRec → List PEvent × Option String
  | [] => ([], none)
  | quote :: rest =>
    if quote.title = title then
      match process_quote env quote with
      | (evs, some e) => (evs, some e)
      | (evs, none) =>
        match process_quotes env title rest with
        | (evs2, exc) => (evs ++ evs2, exc)
    else
      process_quotes env title rest

/-- The per-message block (lines 255-285) including its `try/except`:
when the subject contains the marker, extract the title, log it, and
scan the fresh listing; any exception from the block is caught and
logged by the handler at line 284. -/
def process_message (env : MsgEnv) : List PEvent :=
  if pyContains env.subject marker then
    let title := extract_title env.subject
    match process_quotes env title env.listing with
    | (evs, none) => PEvent.emailFound title :: evs
    | (evs, some e) => PEvent.emailFound title :: evs ++ [PEvent.errorProcessing e]
  else
    []

/-- Number of `retry_with_backoff` move invocations among the events. -/
def countMoves (events : List PEvent) : Nat :=
  events.countP fun e =>
    match e with
    | .moveInvoked _ => true
    | _ => false

/-- A quote in the listing that resolves fully: `get_quote_details`
returns details, they carry a truthy (present and nonzero) sales-order
id, the sales-order lines come back non-empty, and every line has its
`price` and `tax` keys, so the block at lines 264-283 reaches the
move. -/
def goodQuote (env : MsgEnv) (q : QuoteRec) : Prop :=
  ∃ qd, env.details q.id = some qd ∧
  ∃ soid, qd.salesOrderId = some soid ∧ soid ≠ 0 ∧
  ∃ ls, env.lines soid = some ls ∧ ls.isEmpty = false ∧
    ∀ l ∈ ls, l.price ≠ none ∧ l.tax ≠ none

/-- One iteration of the `while True` polling loop (lines 224-292):
the token refresh / account rebuild (lines 228-251, `tokenRefresh`)
and the inbox messages listed for this cycle (line 254, capped at 1000
by the source slice). -/
structure Cycle where
  tokenRefresh : Except String Unit
  msgs : List MsgEnv

/-- Inputs of one `monitor_inbox` run: the initial quote fetch (lines
210-215), the one-time "Processed Quotes" folder access (lines
217-222) giving the folder name or raising, and the polling cycles to
simulate (fuel for the infinite loop). -/
structure MonitorInput where
  initialQuotes : Except String (List QuoteRec)
  folder : Except String String
  cycles : List Cycle

/-- Observable events of a `monitor_inbox` run. -/
inductive MEvent where
  | quotesRetrieved (n : Nat)
  | quotesFetchError (e : String)
  | folderError (e : String)
  | checking
  | msgEvent (e : PEvent)
  | monitoringError (e : String)
  | sleeping
deriving DecidableEq

/-- Result of a `monitor_inbox` run: the event trace and whether the
function returned (which the source does only at line 222, on a folder
access failure) as opposed to still polling when the simulated cycles
ran out. -/
structure MonitorResult where
  events : List MEvent
  returned : Bool

/-- One polling cycle: log the check (line 225); refresh the token and
rebuild the account — an exception there is caught at line 287 and
logged — otherwise process every listed message; then sleep (line
292). -/
def run_cycle (cycle : Cycle) : List MEvent :=
  MEvent.checking ::
    (match cycle.tokenRefresh with
     | .error e => [MEvent.monitoringError e]
     | .ok _ =>
       (cycle.msgs.map fun env => (process_message env).map MEvent.msgEvent).flatten)
    ++ [MEvent.sleeping]

/-- The initial quote fetch (lines 210-215): logged count on success,
logged error otherwise (the loop proceeds either way; the fetched list
itself is dead after line 212 — the matching loop re-fetches). -/
def init_events (inp : MonitorInput) : List MEvent :=
  match inp.initialQuotes with
  | .ok quotes => [MEvent.quotesRetrieved quotes.length]
  | .error e => [MEvent.quotesFetchError e]

/-- `monitor_inbox` (lines 206-292): initial fetch, then the folder
access — on failure log and `return` (line 222) — then the polling
loop over the given cycles. -/
def monitor_inbox (inp : MonitorInput) : MonitorResult :=
  match inp.folder with
  | .error e => ⟨init_events inp ++ [MEvent.folderError e], true⟩
  | .ok _ => ⟨init_events inp ++ (inp.cycles.map run_cycle).flatten, false⟩

/-- Number of `checking` events (one per polling cycle entered). -/
def countChecking (events : List MEvent) : Nat :=
  events.countP fun e =>
    match e with
    | .checking => true
    | _ => false

/-- Number of `sleeping` events (one per polling cycle completed). -/
def countSleeping (events : List MEvent) : Nat :=
  events.countP fun e =>
    match e with
    | .sleeping => true
    | _ => false

/-! ### Concrete inputs used by witnesses and counterexamples -/

/-- An operation that fails retryably on the first four attempts and
succeeds on the fifth (the C1 scenario). -/
def funcC1 : Nat → Outcome := fun i =>
  if i < 4 then .failure .errorServerBusy else .success

/-- An operation that fails non-retryably on every attempt (the C7
scenario: fatal on the first attempt). -/
def funcC7 : Nat → Outcome := fun _ => .failure (.other "mailbox failure")

/-- An operation that fails retryably on every attempt (the C10
scenario). -/
def funcC10 : Nat → Outcome := fun _ => .failure .rateLimitError

/-- Two full pages of 100 quotes followed by a page of 30 (the C2
scenario). -/
def pagesC2 : Nat → List Json := fun p =>
  if p ≤ 2 then List.replicate 100 .null
  else if p = 3 then List.replicate 30 .null
  else []

/-- The endpoint serving `pagesC2` with status 200. -/
def respondC2 : Nat → Response := fun p => ⟨200, .arr (pagesC2 p)⟩

/-- An endpoint whose first page is a 200 response with a 100-character
string body (a non-list JSON value of length `page_size`), the rest
empty list pages. -/
def respondC9 : Nat → Response := fun p =>
  if p = 1 then ⟨200, .str (String.mk (List.replicate 100 'a'))⟩
  else ⟨200, .arr []⟩

/-- An endpoint serving a full list page of 100 quotes as page 1 and a
200 response with a one-field JSON object body as every later page. -/
def respondC9w2 : Nat → Response := fun p =>
  if p = 1 then ⟨200, .arr (List.replicate 100 .null)⟩
  else ⟨200, .obj [("message", .str "bad")]⟩

/-- The C3 scenario lines: price 10, tax 1, quantity 2; price 5,
tax 0.5, no quantity. -/
def linesC3 : List SalesOrderLine := [⟨some 10, some 1, some 2⟩, ⟨some 5, some (1/2), none⟩]

/-- The C3 scenario quote: deliveryAmount 3, deliveryTax 0.3. -/
def qdC3 : QuoteDetails := ⟨some 3, some (3/10), none⟩

/-- A line with no `price` key. -/
def linesC8 : List SalesOrderLine := [⟨none, some 1, none⟩]

/-- A quote with no delivery fields. -/
def qdC8 : QuoteDetails := ⟨none, none, none⟩

/-- Quote details carrying a sales-order id. -/
def detailsC4 : QuoteDetails := ⟨some 0, some 0, some 7⟩

/-- A message whose subject matches and a listing with two quotes of
the same title `"Acme Deal"`, both fully resolvable. -/
def envC4 : MsgEnv :=
  ⟨"Acme Deal has been signed by J. Doe",
   [⟨1, "Acme Deal"⟩, ⟨2, "Acme Deal"⟩],
   fun _ => some detailsC4,
   fun _ => some [⟨some 10, some 1, some 1⟩]⟩

/-- A subject containing `"has been signed by "` with no space before
it. -/
def subjC6 : String := "Acme Dealhas been signed by J. Doe"

/-- The C6 scenario: subject `"Acme Deal has been signed by J. Doe"`
and a listing containing a quote titled `"Acme Deal"`. -/
def envC6 : MsgEnv :=
  ⟨"Acme Deal has been signed by J. Doe",
   [⟨1, "Acme Deal"⟩],
   fun _ => some detailsC4,
   fun _ => some [⟨some 10, some 1, some 1⟩]⟩

/-- A monitor input whose folder access raises, with one polling cycle
available. -/
def inpC5 : MonitorInput := ⟨.ok [], .error "folder not found", [⟨.ok (), []⟩]⟩

/-- A monitor input with a working folder, a failing initial quote
fetch, and two cycles of which the first has a failing token refresh. -/
def inpC5w : MonitorInput :=
  ⟨.error "api down", .ok "Processed Quotes",
   [⟨.error "token acquisition failed", []⟩, ⟨.ok (), []⟩]⟩

/-! ## Helper lemmas: retry executor -/

theorem backoffWaits_succ (d k : Nat) :
    backoffWaits d (k + 1) = backoffWaits d k ++ [d * 2 ^ k] := by
  induction k generalizing d with
  | zero => simp [backoffWaits]
  | succ k ih =>
    show d :: backoffWaits (d * 2) (k + 1) = backoffWaits d (k + 1) ++ [d * 2 ^ (k + 1)]
    rw [ih, backoffWaits]
    simp only [List.cons_append]
    congr 3
    ring

theorem backoffWaits_eq_map (d : Nat) :
    ∀ k, backoffWaits d k = (List.range k).map (fun i => d * 2 ^ i) := by
  intro k
  induction k with
  | zero => simp [backoffWaits]
  | succ k ih =>
    rw [backoffWaits_succ, ih, List.range_succ, List.map_append]
    simp

theorem backoffWaits_length (d : Nat) : ∀ k, (backoffWaits d k).length = k := by
  intro k
  induction k generalizing d with
  | zero => simp [backoffWaits]
  | succ k ih => simp [backoffWaits, ih]

theorem retryGo_calls_le (func : Nat → Outcome) :
    ∀ rem att delay waits, (retryGo func rem att delay waits).calls ≤ att + rem := by
  intro rem
  induction rem with
  | zero => intro att delay waits; simp [retryGo]
  | succ rem ih =>
    intro att delay waits
    rw [retryGo]
    cases func att with
    | success => simp
    | failure e =>
      by_cases he : retryable e = true
      · simpa [he] using le_trans (ih (att + 1) (delay * 2) (waits ++ [delay])) (by omega)
      · simp at he
        simp [he]

theorem retryGo_prefix (func : Nat → Outcome) :
    ∀ (k : Nat) (rem att delay : Nat) (waits : List Nat),
      (∀ i, i < k → isRetryableFailure (func (att + i)) = true) →
      retryGo func (k + rem) att delay waits =
        retryGo func rem (att + k) (delay * 2 ^ k) (waits ++ backoffWaits delay k) := by
  intro k
  induction k with
  | zero => intro rem att delay waits _; simp [backoffWaits]
  | succ k ih =>
    intro rem att delay waits h
    have h0 : isRetryableFailure (func att) = true := by
      simpa using h 0 (by omega)
    have hstep : retryGo func (k + rem + 1) att delay waits =
        retryGo func (k + rem) (att + 1) (delay * 2) (waits ++ [delay]) := by
      cases hf : func att with
      | success => rw [hf] at h0; simp [isRetryableFailure] at h0
      | failure e =>
        have he : retryable e = true := by
          rw [hf] at h0; simpa [isRetryableFailure] using h0
        rw [retryGo, hf]
        simp [he]
    have hshift : ∀ i, i < k → isRetryableFailure (func (att + 1 + i)) = true := by
      intro i hi
      have := h (i + 1) (by omega)
      have harg : att + (i + 1) = att + 1 + i := by omega
      rwa [harg] at this
    have e1 : att + 1 + k = att + (k + 1) := by omega
    have e2 : delay * 2 * 2 ^ k = delay * 2 ^ (k + 1) := by ring
    have e3 : (waits ++ [delay]) ++ backoffWaits (delay * 2) k =
        waits ++ backoffWaits delay (k + 1) := by
      rw [backoffWaits]; simp
    have hmain := ih rem (att + 1) (delay * 2) (waits ++ [delay]) hshift
    rw [show k + 1 + rem = k + rem + 1 by omega, hstep, hmain, e1, e2, e3]

theorem retry_all_retryable (func : Nat → Outcome) (mr base : Nat)
    (h : ∀ i, i < mr → isRetryableFailure (func i) = true) :
    retry_with_backoff func mr base = ⟨mr, backoffWaits base mr, false, true⟩ := by
  have hp := retryGo_prefix func mr 0 0 base [] (by simpa using h)
  rw [retry_with_backoff, show mr = mr + 0 by omega, hp]
  simp [retryGo]

theorem retry_success_at (func : Nat → Outcome) (mr base k : Nat) (hk : k < mr)
    (hpre : ∀ i, i < k → isRetryableFailure (func i) = true)
    (hs : func k = Outcome.success) :
    retry_with_backoff func mr base = ⟨k + 1, backoffWaits base k, true, false⟩ := by
  have hp := retryGo_prefix func k (mr - k) 0 base [] (by simpa using hpre)
  rw [retry_with_backoff, show mr = k + (mr - k) by omega, hp]
  obtain ⟨m, hm⟩ : ∃ m, mr - k = m + 1 := ⟨mr - k - 1, by omega⟩
  rw [hm, retryGo]
  simp [hs]

theorem retry_fatal_at (func : Nat → Outcome) (mr base j : Nat) (hj : j < mr)
    (hpre : ∀ i, i < j → isRetryableFailure (func i) = true)
    (hf : isFatalFailure (func j) = true) :
    retry_with_backoff func mr base = ⟨j + 1, backoffWaits base j, false, true⟩ := by
  have hp := retryGo_prefix func j (mr - j) 0 base [] (by simpa using hpre)
  rw [retry_with_backoff, show mr = j + (mr - j) by omega, hp]
  obtain ⟨m, hm⟩ : ∃ m, mr - j = m + 1 := ⟨mr - j - 1, by omega⟩
  cases hfj : func j with
  | success => rw [hfj] at hf; simp [isFatalFailure] at hf
  | failure e =>
    have he : retryable e = false := by
      rw [hfj] at hf
      simpa [isFatalFailure] using hf
    rw [hm, retryGo]
    simp [hfj, he]

/-! ## C1, C7, C10: the retry executor -/

/-- C1: `retry_with_backoff` invokes the wrapped operation at most
`max_retries` times; after each retryable failure it waits the current
delay, which starts at `base_delay` and doubles after each retryable
failure, so a run of `k` retryable failures followed by success on
attempt `k + 1` succeeds with waits `base_delay * 2 ^ i` for
`i = 0, ..., k - 1`; a non-retryable failure aborts immediately with
no further attempt. -/
theorem retry_backoff_c1 (func : Nat → Outcome) (max_retries base_delay : Nat) :
    (retry_with_backoff func max_retries base_delay).calls ≤ max_retries ∧
    (∀ k, k < max_retries →
      (∀ i, i < k → isRetryableFailure (func i) = true) →
      func k = Outcome.success →
      retry_with_backoff func max_retries base_delay =
        ⟨k + 1, (List.range k).map (fun i => base_delay * 2 ^ i), true, false⟩) ∧
    (∀ j, j < max_retries →
      (∀ i, i < j → isRetryableFailure (func i) = true) →
      isFatalFailure (func j) = true →
      retry_with_backoff func max_retries base_delay =
        ⟨j + 1, (List.range j).map (fun i => base_delay * 2 ^ i), false, true⟩) := by
  refine ⟨by simpa using retryGo_calls_le func max_retries 0 base_delay [], ?_, ?_⟩
  · intro k hk hpre hs
    rw [retry_success_at func max_retries base_delay k hk hpre hs, backoffWaits_eq_map]
  · intro j hj hpre hf
    rw [retry_fatal_at func max_retries base_delay j hj hpre hf, backoffWaits_eq_map]

/-- C1 witness: with the source defaults (5 retries, base delay 5), an
operation failing retryably on the first 4 attempts and succeeding on
the 5th is called 5 times, succeeds, and sleeps 5, 10, 20, 40. -/
theorem retry_backoff_c1_witness :
    retry_with_backoff funcC1 5 5 = ⟨5, [5, 10, 20, 40], true, false⟩ := by
  have h := (retry_backoff_c1 funcC1 5 5).2.1 4 (by decide) (by decide) (by decide)
  exact h.trans (by decide)

/-- C7: `retry_with_backoff` always returns normally.  After
exhausting all attempts on retryable failures it logs the final
failure; on a non-retryable failure at any attempt it makes no further
wait (the waits are exactly the earlier retryable ones), makes no
further attempt, logs the final failure, and returns. -/
theorem retry_never_raises_c7 (func : Nat → Outcome) (max_retries base_delay : Nat) :
    ((∀ i, i < max_retries → isRetryableFailure (func i) = true) →
      (retry_with_backoff func max_retries base_delay).succeeded = false ∧
      (retry_with_backoff func max_retries base_delay).finalFailureLogged = true ∧
      (retry_with_backoff func max_retries base_delay).calls = max_retries) ∧
    (∀ j, j < max_retries →
      (∀ i, i < j → isRetryableFailure (func i) = true) →
      isFatalFailure (func j) = true →
      (retry_with_backoff func max_retries base_delay).waits.length = j ∧
      (retry_with_backoff func max_retries base_delay).calls = j + 1 ∧
      (retry_with_backoff func max_retries base_delay).succeeded = false ∧
      (retry_with_backoff func max_retries base_delay).finalFailureLogged = true) := by
  constructor
  · intro hall
    rw [retry_all_retryable func max_retries base_delay hall]
    exact ⟨rfl, rfl, rfl⟩
  · intro j hj hpre hf
    rw [retry_fatal_at func max_retries base_delay j hj hpre hf]
    exact ⟨backoffWaits_length base_delay j, rfl, rfl, rfl⟩

/-- C7 witness: a non-retryable failure on the first attempt gives one
call, no waits, no success, and the final failure log. -/
theorem retry_never_raises_c7_witness :
    (retry_with_backoff funcC7 5 5).waits.length = 0 ∧
    (retry_with_backoff funcC7 5 5).calls = 1 ∧
    (retry_with_backoff funcC7 5 5).succeeded = false ∧
    (retry_with_backoff funcC7 5 5).finalFailureLogged = true := by
  have h := (retry_never_raises_c7 funcC7 5 5).2 0 (by decide) (by decide) (by decide)
  exact h

/-- C10: when every attempt fails retryably, the final attempt is
still followed by a sleep of `base_delay * 2 ^ (max_retries - 1)`
before the final failure is logged, so the total waiting time is
`base_delay * (2 ^ max_retries - 1)`. -/
theorem retry_final_sleep_c10 (func : Nat → Outcome) (max_retries base_delay : Nat)
    (hpos : 0 < max_retries)
    (hall : ∀ i, i < max_retries → isRetryableFailure (func i) = true) :
    (retry_with_backoff func max_retries base_delay).waits =
      (List.range max_retries).map (fun i => base_delay * 2 ^ i) ∧
    (retry_with_backoff func max_retries base_delay).waits.getLast? =
      some (base_delay * 2 ^ (max_retries - 1)) ∧
    (retry_with_backoff func max_retries base_delay).waits.sum =
      base_delay * (2 ^ max_retries - 1) ∧
    (retry_with_backoff func max_retries base_delay).finalFailureLogged = true := by
  rw [retry_all_retryable func max_retries base_delay hall]
  obtain ⟨m, hm⟩ : ∃ m, max_retries = m + 1 := ⟨max_retries - 1, by omega⟩
  subst hm
  refine ⟨backoffWaits_eq_map base_delay (m + 1), ?_, ?_, rfl⟩
  · rw [backoffWaits_succ, List.getLast?_concat]
    simp
  · rw [backoffWaits_eq_map]
    have hgeom : ∀ n, ((List.range n).map (fun i => base_delay * 2 ^ i)).sum =
        base_delay * (2 ^ n - 1) := by
      intro n
      induction n with
      | zero => simp
      | succ n ih =>
        rw [List.range_succ, List.map_append, List.sum_append, ih]
        have h1 : 0 < 2 ^ n := pow_pos (by norm_num) n
        have h2 : 2 ^ n - 1 + 2 ^ n = 2 ^ n * 2 - 1 := by omega
        calc base_delay * (2 ^ n - 1) + ([base_delay * 2 ^ n] : List Nat).sum
            = base_delay * (2 ^ n - 1) + base_delay * 2 ^ n := by simp
          _ = base_delay * (2 ^ n - 1 + 2 ^ n) := by rw [Nat.mul_add]
          _ = base_delay * (2 ^ (n + 1) - 1) := by rw [pow_succ, h2]
    exact hgeom (m + 1)

/-- C10 witness: at the source defaults, five retryable failures sleep
5, 10, 20, 40 and then 80 before the final failure log, 155 seconds in
total. -/
theorem retry_final_sleep_c10_witness :
    (retry_with_backoff funcC10 5 5).waits = [5, 10, 20, 40, 80] ∧
    (retry_with_backoff funcC10 5 5).waits.getLast? = some 80 ∧
    (retry_with_backoff funcC10 5 5).waits.sum = 155 := by
  have h := retry_final_sleep_c10 funcC10 5 5 (by decide) (by decide)
  exact ⟨h.1.trans (by decide), (h.2.1).trans (by decide), (h.2.2.1).trans (by decide)⟩

/-! ## Helper lemmas: pagination -/

theorem pageConcat_succ (pages : Nat → List Json) :
    ∀ k page, pageConcat pages page (k + 1) = pageConcat pages page k ++ pages (page + k) := by
  intro k
  induction k with
  | zero => intro page; simp [pageConcat]
  | succ k ih =>
    intro page
    rw [pageConcat, ih (page + 1), pageConcat]
    rw [List.append_assoc]
    congr 3
    omega

theorem gaqGo_full (respond : Nat → Response) (pages : Nat → List Json) (ps : Nat) :
    ∀ (k rem page : Nat) (acc : List Json) (reqs : Nat),
      (∀ i, i < k → respond (page + i) = ⟨200, .arr (pages (page + i))⟩) →
      (∀ i, i < k → ps ≤ (pages (page + i)).length) →
      gaqGo respond ps (k + rem) page acc reqs =
        gaqGo respond ps rem (page + k) (acc ++ pageConcat pages page k) (reqs + k) := by
  intro k
  induction k with
  | zero => intro rem page acc reqs _ _; simp [pageConcat]
  | succ k ih =>
    intro rem page acc reqs hresp hfull
    have h0 := hresp 0 (by omega)
    have hl0 := hfull 0 (by omega)
    simp only [Nat.add_zero] at h0 hl0
    have hstep : gaqGo respond ps (k + rem + 1) page acc reqs =
        gaqGo respond ps (k + rem) (page + 1) (acc ++ pages page) (reqs + 1) := by
      rw [gaqGo, h0]
      simp [pyLen, Nat.not_lt.mpr hl0]
    have hshift1 : ∀ i, i < k → respond (page + 1 + i) = ⟨200, .arr (pages (page + 1 + i))⟩ := by
      intro i hi
      have := hresp (i + 1) (by omega)
      rwa [show page + (i + 1) = page + 1 + i by omega] at this
    have hshift2 : ∀ i, i < k → ps ≤ (pages (page + 1 + i)).length := by
      intro i hi
      have := hfull (i + 1) (by omega)
      rwa [show page + (i + 1) = page + 1 + i by omega] at this
    rw [show k + 1 + rem = k + rem + 1 by omega, hstep,
      ih rem (page + 1) (acc ++ pages page) (reqs + 1) hshift1 hshift2]
    have e1 : page + 1 + k = page + (k + 1) := by omega
    have e2 : acc ++ pages page ++ pageConcat pages (page + 1) k =
        acc ++ pageConcat pages page (k + 1) := by
      rw [pageConcat, List.append_assoc]
    have e3 : reqs + 1 + k = reqs + (k + 1) := by omega
    rw [e1, e2, e3]

theorem requestsOf_gaqGo_ge (respond : Nat → Response) (ps : Nat) :
    ∀ fuel page acc reqs, reqs ≤ requestsOf (gaqGo respond ps fuel page acc reqs) := by
  intro fuel
  induction fuel with
  | zero => intro page acc reqs; simp [gaqGo, requestsOf]
  | succ fuel ih =>
    intro page acc reqs
    rw [gaqGo]
    by_cases hs : (respond page).status = 200
    · cases hpl : pyLen (respond page).body with
      | none => simp [hs, hpl, requestsOf]
      | some n =>
        by_cases hn : n < ps
        · simp [hs, hpl, hn, requestsOf]
        · simp [hs, hpl, hn]
          exact le_trans (Nat.le_succ reqs) (ih (page + 1) _ (reqs + 1))
    · simp [hs, requestsOf]

theorem requestsOf_gaqGo_succ_ge (respond : Nat → Response) (ps : Nat)
    (fuel page : Nat) (acc : List Json) (reqs : Nat) (hfuel : 1 ≤ fuel) :
    reqs + 1 ≤ requestsOf (gaqGo respond ps fuel page acc reqs) := by
  obtain ⟨f, rfl⟩ : ∃ f, fuel = f + 1 := ⟨fuel - 1, by omega⟩
  rw [gaqGo]
  by_cases hs : (respond page).status = 200
  · cases hpl : pyLen (respond page).body with
    | none => simp [hs, hpl, requestsOf]
    | some n =>
      by_cases hn : n < ps
      · simp [hs, hpl, hn, requestsOf]
      · simp [hs, hpl, hn]
        exact requestsOf_gaqGo_ge respond ps f (page + 1) _ (reqs + 1)
  · simp [hs, requestsOf]

/-! ## C2, C9: the paginated quote listing -/

/-- C2: when pages `1..k-1` are full 200-list responses (length at
least `page_size`) and page `k` is the first short page,
`get_all_quotes` returns the in-order concatenation of pages `1..k`
and issues exactly `k` requests; when instead page `k` answers with a
non-200 status, it stops there and returns the partial accumulation of
pages `1..k-1`, still having issued `k` requests. -/
theorem get_all_quotes_c2 (pages : Nat → List Json) (respond : Nat → Response)
    (page_size k fuel : Nat) (hk : 1 ≤ k) (hfuel : k ≤ fuel) :
    ((∀ p, p < k + 1 → 1 ≤ p → respond p = ⟨200, .arr (pages p)⟩) →
      (∀ p, p < k → 1 ≤ p → page_size ≤ (pages p).length) →
      (pages k).length < page_size →
      get_all_quotes respond 1 page_size fuel = .ok (pageConcat pages 1 k) k) ∧
    ((∀ p, p < k → 1 ≤ p → respond p = ⟨200, .arr (pages p)⟩) →
      (∀ p, p < k → 1 ≤ p → page_size ≤ (pages p).length) →
      (respond k).status ≠ 200 →
      get_all_quotes respond 1 page_size fuel = .ok (pageConcat pages 1 (k - 1)) k) := by
  obtain ⟨j, rfl⟩ : ∃ j, k = j + 1 := ⟨k - 1, by omega⟩
  obtain ⟨m, hm⟩ : ∃ m, fuel - j = m + 1 := ⟨fuel - j - 1, by omega⟩
  constructor
  · intro hresp hfull hshort
    have hr : ∀ i, i < j → respond (1 + i) = ⟨200, .arr (pages (1 + i))⟩ := by
      intro i hi; exact hresp (1 + i) (by omega) (by omega)
    have hf2 : ∀ i, i < j → page_size ≤ (pages (1 + i)).length := by
      intro i hi; exact hfull (1 + i) (by omega) (by omega)
    have hfu := gaqGo_full respond pages page_size j (fuel - j) 1 [] 0 hr hf2
    rw [get_all_quotes, show fuel = j + (fuel - j) by omega, hfu, hm, gaqGo]
    have hrk : respond (1 + j) = ⟨200, .arr (pages (1 + j))⟩ :=
      hresp (1 + j) (by omega) (by omega)
    rw [hrk]
    have hsk : (pages (1 + j)).length < page_size := by
      rw [show 1 + j = j + 1 by omega]; exact hshort
    simp only [pyLen, List.nil_append, Nat.zero_add]
    simp [hsk]
    rw [show 1 + j = j + 1 by omega] at hsk ⊢
    rw [pageConcat_succ pages j 1, show 1 + j = j + 1 by omega]
  · intro hresp hfull hbad
    have hr : ∀ i, i < j → respond (1 + i) = ⟨200, .arr (pages (1 + i))⟩ := by
      intro i hi; exact hresp (1 + i) (by omega) (by omega)
    have hf2 : ∀ i, i < j → page_size ≤ (pages (1 + i)).length := by
      intro i hi; exact hfull (1 + i) (by omega) (by omega)
    have hfu := gaqGo_full respond pages page_size j (fuel - j) 1 [] 0 hr hf2
    rw [get_all_quotes, show fuel = j + (fuel - j) by omega, hfu, hm, gaqGo]
    have hbad2 : ¬((respond (1 + j)).status = 200) := by
      rw [show 1 + j = j + 1 by omega]; exact hbad
    simp [hbad2]

set_option maxRecDepth 100000 in
/-- C2 witness: two full pages of 100 quotes then a page of 30 yield
230 quotes in 3 requests. -/
theorem get_all_quotes_c2_witness :
    get_all_quotes respondC2 1 100 10 = .ok (List.replicate 230 Json.null) 3 := by
  have h := (get_all_quotes_c2 pagesC2 respondC2 100 3 10 (by decide) (by decide)).1
    (fun p _ _ => rfl) (by decide) (by decide)
  exact h.trans (by rfl)

theorem gaqGo_nonlist_step (respond : Nat → Response) (ps m page : Nat)
    (acc : List Json) (reqs : Nat) (j : Json)
    (hresp : respond page = ⟨200, j⟩) (hj : j.isArr = false) :
    (∀ n, pyLen j = some n → n < ps →
      gaqGo respond ps (m + 1) page acc reqs = .ok acc (reqs + 1)) ∧
    (∀ n, pyLen j = some n → ps ≤ n →
      gaqGo respond ps (m + 1) page acc reqs =
        gaqGo respond ps m (page + 1) acc (reqs + 1)) ∧
    (pyLen j = none → gaqGo respond ps (m + 1) page acc reqs = .typeError (reqs + 1)) := by
  refine ⟨?_, ?_, ?_⟩
  · intro n hn hlt
    rw [gaqGo, hresp]
    cases j with
    | arr items => simp [Json.isArr] at hj
    | obj fields => simp [pyLen] at hn; subst hn; simp [pyLen, hlt]
    | str s => simp [pyLen] at hn; subst hn; simp [pyLen, hlt]
    | num v => simp [pyLen] at hn
    | bool b => simp [pyLen] at hn
    | null => simp [pyLen] at hn
  · intro n hn hge
    rw [gaqGo, hresp]
    cases j with
    | arr items => simp [Json.isArr] at hj
    | obj fields => simp [pyLen] at hn; subst hn; simp [pyLen, Nat.not_lt.mpr hge]
    | str s => simp [pyLen] at hn; subst hn; simp [pyLen, Nat.not_lt.mpr hge]
    | num v => simp [pyLen] at hn
    | bool b => simp [pyLen] at hn
    | null => simp [pyLen] at hn
  · intro hn
    rw [gaqGo, hresp]
    cases j with
    | arr items => simp [Json.isArr] at hj
    | obj fields => simp [pyLen] at hn
    | str s => simp [pyLen] at hn
    | num v => simp [pyLen]
    | bool b => simp [pyLen]
    | null => simp [pyLen]

/-- C9 (amended): a 200 response whose body is not a list, arriving as
page `k` of the run after `k - 1` full list pages, contributes no
items — the accumulated result is exactly the earlier pages — but it
is not unconditionally treated as an exhausted page: the loop applies
`len(data) < page_size` to the non-list body, so it stops only when
the body's Python length is below `page_size`, continues with page
`k + 1` (issuing at least one further request) when the length is at
least `page_size`, and raises a `TypeError` when the body has no
length. -/
theorem gaq_nonlist_c9_amended (pages : Nat → List Json) (respond : Nat → Response)
    (page_size k fuel : Nat) (j : Json) (hk : 1 ≤ k) (hfuel : k ≤ fuel)
    (hresp : ∀ p, p < k → 1 ≤ p → respond p = ⟨200, .arr (pages p)⟩)
    (hfull : ∀ p, p < k → 1 ≤ p → page_size ≤ (pages p).length)
    (hrespk : respond k = ⟨200, j⟩) (hj : j.isArr = false) :
    (∀ n, pyLen j = some n → n < page_size →
      get_all_quotes respond 1 page_size fuel = .ok (pageConcat pages 1 (k - 1)) k) ∧
    (∀ n, pyLen j = some n → page_size ≤ n →
      get_all_quotes respond 1 page_size fuel =
        gaqGo respond page_size (fuel - k) (k + 1) (pageConcat pages 1 (k - 1)) k ∧
      (1 ≤ fuel - k →
        k + 1 ≤ requestsOf (get_all_quotes respond 1 page_size fuel))) ∧
    (pyLen j = none → get_all_quotes respond 1 page_size fuel = .typeError k) := by
  obtain ⟨jj, rfl⟩ : ∃ jj, k = jj + 1 := ⟨k - 1, by omega⟩
  obtain ⟨m, hm⟩ : ∃ m, fuel - jj = m + 1 := ⟨fuel - jj - 1, by omega⟩
  have hr : ∀ i, i < jj → respond (1 + i) = ⟨200, .arr (pages (1 + i))⟩ := by
    intro i hi; exact hresp (1 + i) (by omega) (by omega)
  have hf2 : ∀ i, i < jj → page_size ≤ (pages (1 + i)).length := by
    intro i hi; exact hfull (1 + i) (by omega) (by omega)
  have hfu := gaqGo_full respond pages page_size jj (fuel - jj) 1 [] 0 hr hf2
  have hrk : respond (1 + jj) = ⟨200, j⟩ := by
    rw [show 1 + jj = jj + 1 by omega]; exact hrespk
  have hstep := gaqGo_nonlist_step respond page_size m (1 + jj)
    ([] ++ pageConcat pages 1 jj) (0 + jj) j hrk hj
  refine ⟨?_, ?_, ?_⟩
  · intro n hn hlt
    rw [get_all_quotes, show fuel = jj + (fuel - jj) by omega, hfu, hm,
      hstep.1 n hn hlt]
    simp
  · intro n hn hge
    have hmain : get_all_quotes respond 1 page_size fuel =
        gaqGo respond page_size (fuel - (jj + 1)) (jj + 1 + 1)
          (pageConcat pages 1 (jj + 1 - 1)) (jj + 1) := by
      rw [get_all_quotes, show fuel = jj + (fuel - jj) by omega, hfu, hm,
        hstep.2.1 n hn hge]
      have e2 : 1 + jj + 1 = jj + 1 + 1 := by omega
      have e3 : ([] : List Json) ++ pageConcat pages 1 jj =
          pageConcat pages 1 (jj + 1 - 1) := by simp
      have e4 : 0 + jj + 1 = jj + 1 := by omega
      have e1 : jj + (m + 1) - (jj + 1) = m := by omega
      rw [e2, e3, e4, e1]
    refine ⟨hmain, fun hf1 => ?_⟩
    rw [hmain]
    exact requestsOf_gaqGo_succ_ge respond page_size (fuel - (jj + 1)) (jj + 1 + 1)
      (pageConcat pages 1 (jj + 1 - 1)) (jj + 1) hf1
  · intro hn
    rw [get_all_quotes, show fuel = jj + (fuel - jj) by omega, hfu, hm,
      hstep.2.2 hn]
    simp

/-- C9 amended witness: after one full list page of 100 quotes, a 200
page whose body is a one-field JSON object (Python length 1, below the
page size) adds no items and the run stops with exactly the first
page's quotes after the second request. -/
theorem gaq_nonlist_c9_amended_witness :
    get_all_quotes respondC9w2 1 100 10 = .ok (List.replicate 100 Json.null) 2 := by
  have h := (gaq_nonlist_c9_amended (fun _ => List.replicate 100 Json.null)
    respondC9w2 100 2 10 (.obj [("message", .str "bad")]) (by decide) (by decide)
    (fun p hp hp1 => by
      have : p = 1 := by omega
      subst this
      rfl)
    (fun p hp hp1 => by
      have : p = 1 := by omega
      subst this
      decide)
    rfl rfl).1 1 rfl (by decide)
  exact h.trans (by rfl)

/-- C9 counterexample: a 200 response whose body is a 100-character
string (a non-list value of Python length equal to the page size) is
not treated as an exhausted page — the loop issues a second request
instead of stopping at the malformed page. -/
theorem gaq_nonlist_c9_cex :
    get_all_quotes respondC9 1 100 10 = .ok [] 2 ∧
    requestsOf (get_all_quotes respondC9 1 100 10) = 2 ∧ (2 : Nat) ≠ 1 :=
  ⟨rfl, rfl, by decide⟩

/-! ## Helper lemmas: total calculator -/

theorem sum_prices_eq : ∀ (lines : List SalesOrderLine),
    (∀ l ∈ lines, l.price ≠ none) →
    sum_prices lines =
      .ok ((lines.map (fun l => l.price.getD 0 * l.quantity.getD 1)).sum) := by
  intro lines
  induction lines with
  | nil => intro _; simp [sum_prices]
  | cons item rest ih =>
    intro h
    obtain ⟨p, hp⟩ : ∃ p, item.price = some p := by
      cases hip : item.price with
      | none => exact absurd hip (h item (by simp))
      | some p => exact ⟨p, rfl⟩
    have ih2 := ih (fun l hl => h l (by simp [hl]))
    rw [sum_prices]
    simp only [hp, dictGet, ih2]
    simp [hp]

theorem sum_taxes_eq : ∀ (lines : List SalesOrderLine),
    (∀ l ∈ lines, l.tax ≠ none) →
    sum_taxes lines =
      .ok ((lines.map (fun l => l.tax.getD 0 * l.quantity.getD 1)).sum) := by
  intro lines
  induction lines with
  | nil => intro _; simp [sum_taxes]
  | cons item rest ih =>
    intro h
    obtain ⟨t, ht⟩ : ∃ t, item.tax = some t := by
      cases hit : item.tax with
      | none => exact absurd hit (h item (by simp))
      | some t => exact ⟨t, rfl⟩
    have ih2 := ih (fun l hl => h l (by simp [hl]))
    rw [sum_taxes]
    simp only [ht, dictGet, ih2]
    simp [ht]

theorem sum_prices_missing : ∀ (lines : List SalesOrderLine),
    (∃ l ∈ lines, l.price = none) → ∃ e, sum_prices lines = .error e := by
  intro lines
  induction lines with
  | nil => rintro ⟨l, hl, _⟩; simp at hl
  | cons item rest ih =>
    rintro ⟨l, hl, hlp⟩
    rcases List.mem_cons.mp hl with rfl | hmem
    · exact ⟨"KeyError: " ++ "price", by rw [sum_prices]; simp [hlp, dictGet]⟩
    · cases hip : item.price with
      | none => exact ⟨"KeyError: " ++ "price", by rw [sum_prices]; simp [hip, dictGet]⟩
      | some p =>
        obtain ⟨e, he⟩ := ih ⟨l, hmem, hlp⟩
        exact ⟨e, by rw [sum_prices]; simp [hip, dictGet, he]⟩

theorem sum_taxes_missing : ∀ (lines : List SalesOrderLine),
    (∃ l ∈ lines, l.tax = none) → ∃ e, sum_taxes lines = .error e := by
  intro lines
  induction lines with
  | nil => rintro ⟨l, hl, _⟩; simp at hl
  | cons item rest ih =>
    rintro ⟨l, hl, hlt⟩
    rcases List.mem_cons.mp hl with rfl | hmem
    · exact ⟨"KeyError: " ++ "tax", by rw [sum_taxes]; simp [hlt, dictGet]⟩
    · cases hit : item.tax with
      | none => exact ⟨"KeyError: " ++ "tax", by rw [sum_taxes]; simp [hit, dictGet]⟩
      | some t =>
        obtain ⟨e, he⟩ := ih ⟨l, hmem, hlt⟩
        exact ⟨e, by rw [sum_taxes]; simp [hit, dictGet, he]⟩

theorem calc_total_eq (qd : QuoteDetails) (lines : List SalesOrderLine)
    (h : ∀ l ∈ lines, l.price ≠ none ∧ l.tax ≠ none) :
    calc_total qd lines = .ok (
      (lines.map (fun l => l.price.getD 0 * l.quantity.getD 1)).sum +
      (lines.map (fun l => l.tax.getD 0 * l.quantity.getD 1)).sum +
      qd.deliveryAmount.getD 0 + qd.deliveryTax.getD 0) := by
  rw [calc_total, sum_prices_eq lines (fun l hl => (h l hl).1),
    sum_taxes_eq lines (fun l hl => (h l hl).2)]

/-! ## C3, C8: the total calculator -/

/-- C3: for lines whose `price` and `tax` keys are present,
`calc_total` is the pure sum of price times quantity plus tax times
quantity over all lines, plus the quote's `deliveryAmount` and
`deliveryTax`; a missing `quantity` defaults to 1 and missing delivery
fields default to 0. -/
theorem calc_total_c3 (quote_details : QuoteDetails) (lines : List SalesOrderLine)
    (h : ∀ l ∈ lines, l.price ≠ none ∧ l.tax ≠ none) :
    calc_total quote_details lines = .ok (
      (lines.map (fun l => l.price.getD 0 * l.quantity.getD 1)).sum +
      (lines.map (fun l => l.tax.getD 0 * l.quantity.getD 1)).sum +
      quote_details.deliveryAmount.getD 0 + quote_details.deliveryTax.getD 0) :=
  calc_total_eq quote_details lines h

/-- C3 witness: lines `[{price 10, tax 1, quantity 2}, {price 5,
tax 0.5}]` with quote `{deliveryAmount 3, deliveryTax 0.3}` total
30.8. -/
theorem calc_total_c3_witness :
    calc_total qdC3 linesC3 = .ok ((30.8 : Rat)) := by
  have h := calc_total_c3 qdC3 linesC3 (by decide)
  rw [h]
  norm_num [linesC3, qdC3]

/-- C8: a sales-order line lacking its `price` key or its `tax` key
makes `calc_total` raise a `KeyError` instead of defaulting the field
to 0. -/
theorem calc_total_c8 (quote_details : QuoteDetails) (lines : List SalesOrderLine)
    (h : ∃ l ∈ lines, l.price = none ∨ l.tax = none) :
    ∃ e, calc_total quote_details lines = .error e := by
  by_cases hp : ∃ l ∈ lines, l.price = none
  · obtain ⟨e, he⟩ := sum_prices_missing lines hp
    exact ⟨e, by rw [calc_total, he]⟩
  · push_neg at hp
    obtain ⟨l, hl, hlpt⟩ := h
    have hlt : l.tax = none := by
      rcases hlpt with hc | hc
      · exact absurd hc (hp l hl)
      · exact hc
    obtain ⟨e, he⟩ := sum_taxes_missing lines ⟨l, hl, hlt⟩
    refine ⟨e, ?_⟩
    rw [calc_total, sum_prices_eq lines hp, he]

/-- C8 witness: a line with no `price` key raises. -/
theorem calc_total_c8_witness : ∃ e, calc_total qdC8 linesC8 = .error e :=
  calc_total_c8 qdC8 linesC8 (by decide)

/-! ## Helper lemmas: Python string split -/

theorem isPrefixOf_append_self {α : Type} [BEq α] [LawfulBEq α] :
    ∀ (l t : List α), l.isPrefixOf (l ++ t) = true := by
  intro l
  induction l with
  | nil => intro t; simp [List.isPrefixOf]
  | cons a as ih => intro t; simp [List.isPrefixOf, ih]

theorem goSplit_no_sep (sep : List Char) (hsep : sep ≠ []) :
    ∀ (l : List Char) (n : Nat) (acc : List Char),
      l.length + 1 ≤ n → containsSub sep l = false →
      goSplit sep n acc l = [acc ++ l] := by
  intro l
  induction l with
  | nil =>
    intro n acc hn _
    obtain ⟨m, rfl⟩ : ∃ m, n = m + 1 := ⟨n - 1, by omega⟩
    obtain ⟨s, ss, rfl⟩ : ∃ s ss, sep = s :: ss := by
      cases sep with
      | nil => exact absurd rfl hsep
      | cons s ss => exact ⟨s, ss, rfl⟩
    rw [goSplit]
    simp [List.isPrefixOf]
  | cons c cs ih =>
    intro n acc hn hc
    obtain ⟨m, rfl⟩ : ∃ m, n = m + 1 := ⟨n - 1, by omega⟩
    rw [containsSub, Bool.or_eq_false_iff] at hc
    rw [goSplit]
    simp only [hc.1, Bool.and_false]
    rw [ih m (acc ++ [c]) (by simp at hn ⊢; omega) hc.2]
    simp

theorem goSplit_first_sep (sep : List Char) (hsep : sep ≠ []) :
    ∀ (a b : List Char) (n : Nat) (acc : List Char),
      (a ++ sep ++ b).length + 1 ≤ n →
      (∀ i, i < a.length → sep.isPrefixOf ((a ++ sep ++ b).drop i) = false) →
      ∃ rest, goSplit sep n acc (a ++ sep ++ b) = (acc ++ a) :: rest := by
  intro a
  induction a with
  | nil =>
    intro b n acc hn _
    obtain ⟨m, rfl⟩ : ∃ m, n = m + 1 := ⟨n - 1, by omega⟩
    have hne : sep.isEmpty = false := by
      cases sep with
      | nil => exact absurd rfl hsep
      | cons s ss => rfl
    refine ⟨goSplit sep m [] b, ?_⟩
    rw [goSplit.eq_def]
    simp only [List.nil_append]
    simp [isPrefixOf_append_self, hne, List.drop_left]
  | cons c cs ih =>
    intro b n acc hn hpre
    obtain ⟨m, rfl⟩ : ∃ m, n = m + 1 := ⟨n - 1, by omega⟩
    have h0 : sep.isPrefixOf (c :: (cs ++ sep ++ b)) = false := by
      have := hpre 0 (by simp)
      simpa using this
    have hpre2 : ∀ i, i < cs.length → sep.isPrefixOf ((cs ++ sep ++ b).drop i) = false := by
      intro i hi
      have := hpre (i + 1) (by simp; omega)
      simpa using this
    obtain ⟨rest, hrest⟩ := ih b m (acc ++ [c]) (by simp at hn ⊢; omega) hpre2
    refine ⟨rest, ?_⟩
    rw [goSplit.eq_def]
    simp only [List.cons_append]
    have h0p : ¬(sep <+: c :: (cs ++ (sep ++ b))) := by
      intro hpfx
      rw [← List.isPrefixOf_iff_prefix, ← List.append_assoc] at hpfx
      rw [h0] at hpfx
      exact Bool.false_ne_true hpfx
    simp [h0p]
    rw [← List.append_assoc, hrest]
    simp

/-! ## C6: title extraction from the subject -/

/-- C6 (amended): the containment test uses the unspaced phrase
`"has been signed by "` while the split separates on the spaced
`" has been signed by "`.  The candidate title is the segment before
the first occurrence of the spaced separator; when the subject
contains no spaced occurrence, the whole subject becomes the
candidate.  In the scenario, subject
`"Acme Deal has been signed by J. Doe"` yields title `"Acme Deal"`,
the listing quote `"Acme Deal"` matches, and the move is invoked. -/
theorem extract_title_c6_amended :
    (∀ a b : List Char,
      (∀ i, i < a.length →
        split_marker.data.isPrefixOf ((a ++ split_marker.data ++ b).drop i) = false) →
      extract_title (String.mk (a ++ split_marker.data ++ b)) = String.mk a) ∧
    (∀ s : String, pyContains s split_marker = false → extract_title s = s) ∧
    (extract_title "Acme Deal has been signed by J. Doe" = "Acme Deal" ∧
      countMoves (process_message envC6) = 1) := by
  have hsep : split_marker.data ≠ [] := by decide
  refine ⟨?_, ?_, by decide, by decide⟩
  · intro a b hpre
    obtain ⟨rest, hrest⟩ := goSplit_first_sep split_marker.data hsep a b
      ((a ++ split_marker.data ++ b).length + 1) [] (le_refl _) hpre
    show String.mk ((pySplit split_marker.data (a ++ split_marker.data ++ b)).headD []) =
      String.mk a
    rw [pySplit, hrest]
    simp
  · intro s hc
    show String.mk ((pySplit split_marker.data s.data).headD []) = s
    rw [pySplit, goSplit_no_sep split_marker.data hsep s.data (s.data.length + 1) []
      (le_refl _) hc]
    rfl

/-- C6 amended witness: the scenario subject, decomposed around the
spaced separator, gives title `"Acme Deal"`. -/
theorem extract_title_c6_amended_witness :
    extract_title (String.mk ("Acme Deal".data ++ split_marker.data ++ "J. Doe".data)) =
      String.mk "Acme Deal".data :=
  extract_title_c6_amended.1 "Acme Deal".data "J. Doe".data (by decide)

/-- C6 counterexample: the subject
`"Acme Dealhas been signed by J. Doe"` contains the marker
`"has been signed by "`, and the prefix of the subject before that
marker is `"Acme Deal"`, but the extracted title is the entire
subject — not the prefix before the marker as the claim states. -/
theorem extract_title_c6_cex :
    pyContains subjC6 marker = true ∧
    spec_prefix_before_marker subjC6 = "Acme Deal" ∧
    extract_title subjC6 = subjC6 ∧
    extract_title subjC6 ≠ spec_prefix_before_marker subjC6 :=
  ⟨by decide, by decide, by decide, by decide⟩

/-! ## Helper lemmas: inbox monitor -/

theorem process_quote_good (env : MsgEnv) (q : QuoteRec) (hq : goodQuote env q) :
    countMoves (process_quote env q).1 = 1 ∧ (process_quote env q).2 = none := by
  obtain ⟨qd, hqd, soid, hso, hs0, ls, hls, hne, hok⟩ := hq
  obtain ⟨t, ht⟩ : ∃ t, calc_total qd ls = .ok t :=
    ⟨_, calc_total_eq qd ls hok⟩
  rw [process_quote]
  simp [hqd, hso, hs0, hls, hne, ht, countMoves]

theorem process_quotes_good (env : MsgEnv) (title : String) :
    ∀ (qs : List QuoteRec),
      (∀ q ∈ qs, q.title = title → goodQuote env q) →
      (process_quotes env title qs).2 = none ∧
      countMoves (process_quotes env title qs).1 =
        qs.countP (fun q => q.title == title) := by
  intro qs
  induction qs with
  | nil => intro _; simp [process_quotes, countMoves]
  | cons q rest ih =>
    intro h
    have ihr := ih (fun x hx => h x (by simp [hx]))
    by_cases hq : q.title = title
    · have hg := process_quote_good env q (h q (by simp) hq)
      rcases hpq : process_quote env q with ⟨evs, exc⟩
      rw [hpq] at hg
      have hexc : exc = none := hg.2
      subst hexc
      rcases hpr : process_quotes env title rest with ⟨evs2, exc2⟩
      rw [hpr] at ihr
      rw [process_quotes, if_pos hq]
      simp only [hpq, hpr]
      refine ⟨ihr.1, ?_⟩
      have e1 : countMoves (evs ++ evs2) = countMoves evs + countMoves evs2 :=
        List.countP_append _ _ _
      have e2 : (q.title == title) = true := beq_iff_eq.mpr hq
      rw [List.countP_cons, e2]
      show countMoves (evs ++ evs2) = _
      rw [e1, hg.1, ihr.2]
      simp [Nat.add_comm]
    · rw [process_quotes, if_neg hq]
      have e2 : (q.title == title) = false := by
        rcases hbe : q.title == title with _ | _
        · rfl
        · exact absurd (beq_iff_eq.mp hbe) hq
      rw [List.countP_cons, e2]
      simpa using ihr

/-! ## C4: duplicate titles in the quote listing -/

/-- C4 (amended): the matching loop has no break, so every quote in
the (fresh) listing whose title equals the extracted candidate is
processed in listing order; when each match resolves fully, the move
is invoked once per matching quote — with duplicate titles the
message is moved once per duplicate, not only for the first match. -/
theorem monitor_match_c4_amended (env : MsgEnv)
    (hmark : pyContains env.subject marker = true)
    (hgood : ∀ q ∈ env.listing, q.title = extract_title env.subject → goodQuote env q) :
    countMoves (process_message env) =
      env.listing.countP (fun q => q.title == extract_title env.subject) := by
  have h := process_quotes_good env (extract_title env.subject) env.listing hgood
  rw [process_message, if_pos hmark]
  rcases hpq : process_quotes env (extract_title env.subject) env.listing with ⟨evs, exc⟩
  rw [hpq] at h
  have hexc : exc = none := h.1
  subst hexc
  simp only [hpq]
  rw [countMoves, List.countP_cons]
  simpa [countMoves] using h.2

/-- C4 amended witness: a listing with two quotes titled
`"Acme Deal"`, both fully resolvable, causes two move invocations for
the one message. -/
theorem monitor_match_c4_amended_witness :
    countMoves (process_message envC4) = 2 := by
  have hgood : ∀ q ∈ envC4.listing,
      q.title = extract_title envC4.subject → goodQuote envC4 q := by
    intro q _ _
    exact ⟨detailsC4, rfl, 7, rfl, by decide,
      [⟨some 10, some 1, some 1⟩], rfl, rfl, by decide⟩
  have h := monitor_match_c4_amended envC4 (by decide) hgood
  exact h.trans (by decide)

/-- C4 counterexample: with two quotes of the same title the move is
invoked twice for the message, so it is not the case that only the
first matching quote is processed. -/
theorem monitor_match_c4_cex :
    countMoves (process_message envC4) = 2 ∧
    countMoves (process_message envC4) ≠ 1 :=
  ⟨by decide, by decide⟩

/-! ## Helper lemmas: polling loop event counts -/

theorem countP_flatten_map {α β : Type} (p : β → Bool) (f : α → List β) :
    ∀ (l : List α),
      ((l.map f).flatten).countP p = (l.map (fun c => (f c).countP p)).sum := by
  intro l
  induction l with
  | nil => simp
  | cons c cs ih => simp [List.countP_append, ih]

theorem countChecking_msgEvent_map (l : List PEvent) :
    countChecking (l.map MEvent.msgEvent) = 0 := by
  rw [countChecking, List.countP_map]
  exact List.countP_eq_zero.mpr (fun a _ => by simp [Function.comp])

theorem countSleeping_msgEvent_map (l : List PEvent) :
    countSleeping (l.map MEvent.msgEvent) = 0 := by
  rw [countSleeping, List.countP_map]
  exact List.countP_eq_zero.mpr (fun a _ => by simp [Function.comp])

theorem countChecking_append (l1 l2 : List MEvent) :
    countChecking (l1 ++ l2) = countChecking l1 + countChecking l2 :=
  List.countP_append _ _ _

theorem countSleeping_append (l1 l2 : List MEvent) :
    countSleeping (l1 ++ l2) = countSleeping l1 + countSleeping l2 :=
  List.countP_append _ _ _

theorem countChecking_flatten_msgs (msgs : List MsgEnv) :
    countChecking
      ((msgs.map fun env => (process_message env).map MEvent.msgEvent).flatten) = 0 := by
  rw [countChecking, countP_flatten_map]
  refine List.sum_eq_zero ?_
  intro x hx
  obtain ⟨env, _, rfl⟩ := List.mem_map.mp hx
  exact countChecking_msgEvent_map (process_message env)

theorem countSleeping_flatten_msgs (msgs : List MsgEnv) :
    countSleeping
      ((msgs.map fun env => (process_message env).map MEvent.msgEvent).flatten) = 0 := by
  rw [countSleeping, countP_flatten_map]
  refine List.sum_eq_zero ?_
  intro x hx
  obtain ⟨env, _, rfl⟩ := List.mem_map.mp hx
  exact countSleeping_msgEvent_map (process_message env)

theorem run_cycle_checking (c : Cycle) : countChecking (run_cycle c) = 1 := by
  rw [run_cycle]
  cases c.tokenRefresh with
  | error e => rfl
  | ok u =>
    show countChecking ((MEvent.checking ::
      (c.msgs.map fun env => (process_message env).map MEvent.msgEvent).flatten) ++
      [MEvent.sleeping]) = 1
    rw [countChecking_append]
    have h1 : countChecking (MEvent.checking ::
        (c.msgs.map fun env => (process_message env).map MEvent.msgEvent).flatten) =
        countChecking
          ((c.msgs.map fun env => (process_message env).map MEvent.msgEvent).flatten) + 1 := by
      rw [countChecking, countChecking, List.countP_cons]
      simp
    rw [h1, countChecking_flatten_msgs]
    rfl

theorem run_cycle_sleeping (c : Cycle) : countSleeping (run_cycle c) = 1 := by
  rw [run_cycle]
  cases c.tokenRefresh with
  | error e => rfl
  | ok u =>
    show countSleeping ((MEvent.checking ::
      (c.msgs.map fun env => (process_message env).map MEvent.msgEvent).flatten) ++
      [MEvent.sleeping]) = 1
    rw [countSleeping_append]
    have h1 : countSleeping (MEvent.checking ::
        (c.msgs.map fun env => (process_message env).map MEvent.msgEvent).flatten) =
        countSleeping
          ((c.msgs.map fun env => (process_message env).map MEvent.msgEvent).flatten) := by
      rw [countSleeping, countSleeping, List.countP_cons]
      rfl
    rw [h1, countSleeping_flatten_msgs]
    rfl

theorem countChecking_cycles : ∀ (cycles : List Cycle),
    countChecking ((cycles.map run_cycle).flatten) = cycles.length := by
  intro cycles
  induction cycles with
  | nil => rfl
  | cons c cs ih =>
    have hsplit : (((c :: cs).map run_cycle).flatten) =
        run_cycle c ++ ((cs.map run_cycle).flatten) := by simp
    rw [hsplit, countChecking_append, run_cycle_checking, ih]
    simp [Nat.add_comm]

theorem countSleeping_cycles : ∀ (cycles : List Cycle),
    countSleeping ((cycles.map run_cycle).flatten) = cycles.length := by
  intro cycles
  induction cycles with
  | nil => rfl
  | cons c cs ih =>
    have hsplit : (((c :: cs).map run_cycle).flatten) =
        run_cycle c ++ ((cs.map run_cycle).flatten) := by simp
    rw [hsplit, countSleeping_append, run_cycle_sleeping, ih]
    simp [Nat.add_comm]

theorem countChecking_init (inp : MonitorInput) : countChecking (init_events inp) = 0 := by
  rw [init_events]
  cases inp.initialQuotes <;> rfl

theorem countSleeping_init (inp : MonitorInput) : countSleeping (init_events inp) = 0 := by
  rw [init_events]
  cases inp.initialQuotes <;> rfl

/-! ## C5: exceptions during per-cycle setup -/

/-- C5 (amended): the per-cycle token refresh is wrapped by the loop's
handler — a token-refresh exception is caught and logged and every
cycle still runs to its sleep — but the "Processed Quotes" folder
access happens once, before the loop, and an exception there is
logged and makes `monitor_inbox` return without entering a single
polling cycle. -/
theorem monitor_setup_c5_amended (inp : MonitorInput) :
    ((∃ e, inp.folder = .error e) →
      (monitor_inbox inp).returned = true ∧
      countChecking (monitor_inbox inp).events = 0) ∧
    (∀ f, inp.folder = .ok f →
      (monitor_inbox inp).returned = false ∧
      countChecking (monitor_inbox inp).events = inp.cycles.length ∧
      countSleeping (monitor_inbox inp).events = inp.cycles.length) := by
  constructor
  · rintro ⟨e, he⟩
    rw [monitor_inbox, he]
    refine ⟨rfl, ?_⟩
    show countChecking (init_events inp ++ [MEvent.folderError e]) = 0
    rw [countChecking_append, countChecking_init inp]
    rfl
  · intro f hf
    rw [monitor_inbox, hf]
    refine ⟨rfl, ?_, ?_⟩
    · show countChecking (init_events inp ++ (inp.cycles.map run_cycle).flatten) =
        inp.cycles.length
      rw [countChecking_append, countChecking_init inp, countChecking_cycles inp.cycles]
      simp
    · show countSleeping (init_events inp ++ (inp.cycles.map run_cycle).flatten) =
        inp.cycles.length
      rw [countSleeping_append, countSleeping_init inp, countSleeping_cycles inp.cycles]
      simp

/-- C5 amended witness: a failing token refresh in the first of two
cycles is absorbed — both cycles check and sleep and the monitor does
not return. -/
theorem monitor_setup_c5_amended_witness :
    (monitor_inbox inpC5w).returned = false ∧
    countChecking (monitor_inbox inpC5w).events = 2 ∧
    countSleeping (monitor_inbox inpC5w).events = 2 := by
  have h := (monitor_setup_c5_amended inpC5w).2 "Processed Quotes" rfl
  exact ⟨h.1, h.2.1.trans (by decide), h.2.2.trans (by decide)⟩

/-- C5 counterexample: with a failing folder access and a polling
cycle available, `monitor_inbox` returns before entering any cycle —
contradicting the claim that no setup error makes the monitor
return. -/
theorem monitor_setup_c5_cex :
    (monitor_inbox inpC5).returned = true ∧
    countChecking (monitor_inbox inpC5).events = 0 ∧
    inpC5.cycles.length = 1 :=
  ⟨by decide, by decide, by decide⟩

end QuoteManager
